import Mathlib

/-!
Verification of the audio-analysis pipeline of the CNN-based music
instrument recognition system.

The embedding below translates, from the Python source:
  * `src/utils/segmentation.py` : `sliding_windows`
    (identical loop body to `segment_audio` in `src/pipeline.py`);
  * `src/config.py`             : the numeric configuration constants;
  * `src/utils/features.py`     : `generate_log_mel` (normalisation step)
    and `fix_mel_frames`;
  * `src/pipeline.py`           : `smooth_predictions` and
    `aggregate_predictions`, and the frame-fixing step of
    `predict_segments`.

Audio samples and probabilities are modelled as exact rationals (`ℚ`).
A prediction matrix of shape `(n, c)` is modelled as a function
`ℕ → ℕ → ℚ` together with its explicit row count `n`; numpy 2-d arrays
produced by the mel-spectrogram code are modelled by the structure
`NPMat` carrying both dimensions.
-/

namespace InstruNet

/-- Configuration constant `TARGET_SR = 22050` from `src/config.py`. -/
def TARGET_SR : ℕ := 22050

/-- Configuration constant `N_MELS = 128` from `src/config.py`. -/
def N_MELS : ℕ := 128

/-- Configuration constant `HOP_LENGTH = 512` from `src/config.py`. -/
def HOP_LENGTH : ℕ := 512

/-- Configuration constant `SEGMENT_DURATION = 3.0` (seconds) from
`src/config.py`; the float value is exactly 3. -/
def SEGMENT_DURATION : ℚ := 3

/-- Configuration constant `HOP_DURATION = 1.5` (seconds) from
`src/config.py`; the float value is exactly 3/2. -/
def HOP_DURATION : ℚ := 3 / 2

/-- Configuration constant `TARGET_FRAMES = 126` from `src/config.py`
(the frame count the CNN input layer expects; `predict_segments` pads or
trims every mel spectrogram to this many frames). -/
def TARGET_FRAMES : ℕ := 126

/-- Configuration constant `EPS = 1e-8` from `src/config.py`, used by
`generate_log_mel` in `src/utils/features.py`; exactly 1/10^8. -/
def EPS : ℚ := 1 / 100000000

/-- The epsilon `1e-6` written inline in the normalisation step of
`predict_segments` in `src/pipeline.py`; exactly 1/10^6. -/
def PIPELINE_EPS : ℚ := 1 / 1000000

/-- The segment built by one iteration of the loop of `sliding_windows`
in `src/utils/segmentation.py` (identical loop body in `segment_audio`,
`src/pipeline.py`), with `end = start + window_samples`: when
`end > len(audio)` the tail slice `audio[start:]` is zero-padded on the
right with `end - len(audio)` samples (`np.pad(..., mode='constant')`),
otherwise the slice `audio[start:end]` is taken. -/
def slidingSeg (audio : List ℚ) (w start : ℕ) : List ℚ :=
  if audio.length < start + w then
    audio.drop start ++ List.replicate (start + w - audio.length) 0
  else
    (audio.drop start).take w

/-- The loop
`for start in range(0, len(audio), hop_samples): ...` of
`sliding_windows` in `src/utils/segmentation.py` (and the identical loop
of `segment_audio` in `src/pipeline.py`).  One recursive step is one
iteration of the Python loop at index `start`: `start < len(audio)` is
the `range` guard, the segment `slidingSeg` and its start index are
appended, and when `end >= len(audio)` the loop breaks.  `fuel` bounds
the number of iterations; `audio.length` iterations always suffice when
`h ≥ 1` (the wrapper passes exactly that). -/
def slidingLoop (audio : List ℚ) (w h : ℕ) : ℕ → ℕ → List (List ℚ) × List ℕ
  | 0, _ => ([], [])
  | fuel + 1, start =>
    if start < audio.length then
      if audio.length ≤ start + w then
        ([slidingSeg audio w start], [start])
      else
        ⟨slidingSeg audio w start :: (slidingLoop audio w h fuel (start + h)).1,
          start :: (slidingLoop audio w h fuel (start + h)).2⟩
    else
      ([], [])

/-- `sliding_windows(audio, sr, window_sec, hop_sec)` from
`src/utils/segmentation.py`, parametrised directly by the sample counts
`w = int(window_sec * sr)` and `h = int(hop_sec * sr)` it computes
first.  Returns the list of segments and the list of start times
`start / sr` (seconds).  Python's `range` raises on step 0, so the
erroneous case `h = 0` is modelled by the empty result; every claim
below assumes `h ≥ 1`. -/
def sliding_windows (audio : List ℚ) (sr w h : ℕ) : List (List ℚ) × List ℚ :=
  if h = 0 then ([], [])
  else
    let p := slidingLoop audio w h audio.length 0
    (p.1, p.2.map (fun s : ℕ => ((s : ℚ) / (sr : ℚ) : ℚ)))

/-- The column-wise mean `predictions.mean(axis=0)` over the `n` rows of
a prediction matrix `P`: the `'mean'` branch of `aggregate_predictions`
in `src/pipeline.py`. -/
def meanAgg (P : ℕ → ℕ → ℚ) (n : ℕ) : ℕ → ℚ :=
  fun c => (∑ i in Finset.range n, P i c) / n

/-- `np.max` over a list of rationals: maximum of a non-empty list
(numpy raises on an empty array; that erroneous case is modelled by 0
and is excluded by the non-emptiness hypotheses of the claims). -/
def npAmax : List ℚ → ℚ
  | [] => 0
  | x :: xs => xs.foldl max x

/-- The column-wise maximum `predictions.max(axis=0)` over the `n` rows
of a prediction matrix `P`: the `'max'` branch of
`aggregate_predictions` in `src/pipeline.py`. -/
def maxAgg (P : ℕ → ℕ → ℚ) (n : ℕ) : ℕ → ℚ :=
  fun c => npAmax ((List.range n).map (fun i => P i c))

/-- The `'voting'` branch of `aggregate_predictions` in
`src/pipeline.py`: `votes = (predictions > 0.5).sum(axis=0)` counts, per
column, the rows strictly above 1/2, and the result is
`votes / len(predictions)`. -/
def votingAgg (P : ℕ → ℕ → ℚ) (n : ℕ) : ℕ → ℚ :=
  fun c => (((Finset.range n).filter (fun i => (1 : ℚ) / 2 < P i c)).card : ℚ) / n

/-- `aggregate_predictions(predictions, method)` from `src/pipeline.py`;
the prediction matrix is `P` with `n = len(predictions)` rows.  The
`raise ValueError(f"Unknown aggregation method: {method}")` of the final
branch is modelled by `Except.error` carrying the same message. -/
def aggregate_predictions (P : ℕ → ℕ → ℚ) (n : ℕ) (method : String) :
    Except String (ℕ → ℚ) :=
  if method = "mean" then Except.ok (meanAgg P n)
  else if method = "max" then Except.ok (maxAgg P n)
  else if method = "voting" then Except.ok (votingAgg P n)
  else Except.error ("Unknown aggregation method: " ++ method)

/-- The value written to `smoothed[i]` by the loop body of
`smooth_predictions` in `src/pipeline.py`:
`start = max(0, i - window_size // 2)`,
`end = min(n_segments, i + window_size // 2 + 1)`, and
`predictions[start:end].mean(axis=0)` — the column-wise mean of the rows
`start ≤ j < end` of `predictions` (natural subtraction is exactly
`max(0, ·)`). -/
def smoothRowVal (pred : ℕ → ℕ → ℚ) (n ws i c : ℕ) : ℚ :=
  (∑ j in Finset.Ico (i - ws / 2) (min n (i + ws / 2 + 1)), pred j c) /
    ((min n (i + ws / 2 + 1) - (i - ws / 2) : ℕ) : ℚ)

/-- In-place update of row `i` of a matrix: the assignment
`smoothed[i] = ...` in `smooth_predictions`. -/
def updRow (S : ℕ → ℕ → ℚ) (i : ℕ) (r : ℕ → ℚ) : ℕ → ℕ → ℚ :=
  fun i' c => if i' = i then r c else S i' c

/-- One iteration of the `for i in range(n_segments)` loop of
`smooth_predictions` in `src/pipeline.py`, acting on the pair of arrays
`(predictions, smoothed)`: the row mean is read from `predictions`
(the first component) and written to row `i` of `smoothed` (the second
component); `predictions` is threaded through untouched, exactly as the
loop body contains no write to it. -/
def smoothStep (n ws : ℕ) (st : (ℕ → ℕ → ℚ) × (ℕ → ℕ → ℚ)) (i : ℕ) :
    (ℕ → ℕ → ℚ) × (ℕ → ℕ → ℚ) :=
  (st.1, updRow st.2 i (fun c => smoothRowVal st.1 n ws i c))

/-- `smooth_predictions(predictions, window_size)` from
`src/pipeline.py`, with both arrays made explicit: the result is the
pair (final state of `predictions`, returned array).  When
`window_size <= 1` the function returns `predictions` itself; otherwise
`smoothed = np.copy(predictions)` is a fresh array initialised to the
same entries, the loop runs over `i in range(n_segments)`, and
`smoothed` is returned. -/
def smooth_predictions_run (P : ℕ → ℕ → ℚ) (n ws : ℕ) :
    (ℕ → ℕ → ℚ) × (ℕ → ℕ → ℚ) :=
  if ws ≤ 1 then (P, P)
  else (List.range n).foldl (smoothStep n ws) (P, fun i c => P i c)

/-- The value returned by `smooth_predictions(predictions, window_size)`
(`src/pipeline.py`) on a matrix with `n = n_segments` rows. -/
def smooth_predictions (P : ℕ → ℕ → ℚ) (n ws : ℕ) : ℕ → ℕ → ℚ :=
  (smooth_predictions_run P n ws).2

/-- A numpy 2-d array of rationals with explicit dimensions: `entry i j`
is meaningful for `i < rows`, `j < cols`. -/
structure NPMat where
  rows : ℕ
  cols : ℕ
  entry : ℕ → ℕ → ℚ

/-- `M.mean()`: the mean of all entries of the matrix. -/
def matMean (M : NPMat) : ℚ :=
  (∑ i in Finset.range M.rows, ∑ j in Finset.range M.cols, M.entry i j) /
    (M.rows * M.cols)

/-- The square of `M.std()` (numpy population variance, `ddof = 0`): the
mean squared deviation of the entries from `matMean M`.  The standard
deviation itself is the non-negative square root of this value, which
is irrational in general; the theorems below quantify over a value `s`
with `0 ≤ s` and `s * s = matVar M` in its place. -/
def matVar (M : NPMat) : ℚ :=
  (∑ i in Finset.range M.rows, ∑ j in Finset.range M.cols,
      (M.entry i j - matMean M) ^ 2) /
    (M.rows * M.cols)

/-- The standardisation `(mel_db - mel_db.mean()) / (mel_db.std() + eps)`
shared by `generate_log_mel` in `src/utils/features.py` (with
`eps = EPS = 1e-8`) and the normalisation step of `predict_segments` in
`src/pipeline.py` (with `eps = 1e-6`); `s` stands for `mel_db.std()`.
An elementwise operation: both dimensions are preserved. -/
def normalizeFeat (M : NPMat) (s eps : ℚ) : NPMat :=
  ⟨M.rows, M.cols, fun i j => (M.entry i j - matMean M) / (s + eps)⟩

/-- The frame-fixing step shared by `fix_mel_frames` in
`src/utils/features.py` and `predict_segments` in `src/pipeline.py`:
if the matrix has fewer than `T` columns it is zero-padded on the
trailing edge (`np.pad(mel, ((0,0),(0,T - cols)), mode='constant')`),
and then only the first `T` columns are kept (`mel[:, :T]`), so in every
case the result has the same rows and exactly `T` columns, the first
`min cols T` of them original and the rest zero. -/
def fixFrames (M : NPMat) (T : ℕ) : NPMat :=
  ⟨M.rows, T, fun i j => if j < M.cols then M.entry i j else 0⟩

/-- The target frame count computed inside `fix_mel_frames` in
`src/utils/features.py`:
`TARGET_FRAMES = int(np.ceil(SEGMENT_DURATION * sr / HOP_LENGTH))`
(a local variable shadowing the config constant). -/
def fix_mel_frames_target (sr : ℕ) : ℕ :=
  ⌈SEGMENT_DURATION * sr / (HOP_LENGTH : ℚ)⌉.toNat

/-- `fix_mel_frames(mel, sr)` from `src/utils/features.py`: pad-or-trim
to the locally computed target frame count. -/
def fix_mel_frames (M : NPMat) (sr : ℕ) : NPMat :=
  fixFrames M (fix_mel_frames_target sr)

theorem slidingSeg_length (audio : List ℚ) (w start : ℕ)
    (hs : start ≤ audio.length) : (slidingSeg audio w start).length = w := by
  unfold slidingSeg
  by_cases hpad : audio.length < start + w
  · rw [if_pos hpad]
    simp only [List.length_append, List.length_drop, List.length_replicate]
    omega
  · rw [if_neg hpad]
    simp only [List.length_take, List.length_drop]
    omega

theorem slidingLoop_seg_length (audio : List ℚ) (w h : ℕ) :
    ∀ fuel start, ∀ seg ∈ (slidingLoop audio w h fuel start).1,
      seg.length = w := by
  intro fuel
  induction fuel with
  | zero => intro start seg hseg; simp [slidingLoop] at hseg
  | succ fuel ih =>
    intro start seg hseg
    rw [slidingLoop] at hseg
    by_cases hg : start < audio.length
    · rw [if_pos hg] at hseg
      by_cases hb : audio.length ≤ start + w
      · rw [if_pos hb] at hseg
        simp only [List.mem_singleton] at hseg
        rw [hseg]
        exact slidingSeg_length audio w start (le_of_lt hg)
      · rw [if_neg hb] at hseg
        simp only [List.mem_cons] at hseg
        rcases hseg with h1 | h2
        · rw [h1]
          exact slidingSeg_length audio w start (le_of_lt hg)
        · exact ih (start + h) seg h2
    · rw [if_neg hg] at hseg
      simp at hseg

theorem slidingLoop_count (audio : List ℚ) (w h : ℕ) (h1 : 1 ≤ h)
    (hw : h ≤ w) :
    ∀ fuel start, start < audio.length → audio.length - start ≤ fuel →
      (slidingLoop audio w h fuel start).1.length
        = (audio.length - start - w + h - 1) / h + 1 := by
  intro fuel
  induction fuel with
  | zero => intro start hs hf; omega
  | succ fuel ih =>
    intro start hs hf
    rw [slidingLoop, if_pos hs]
    by_cases hb : audio.length ≤ start + w
    · rw [if_pos hb]
      have e0 : audio.length - start - w = 0 := by omega
      rw [e0]
      have e1 : (0 + h - 1) / h = 0 := Nat.div_eq_of_lt (by omega)
      rw [e1]
      simp
    · rw [if_neg hb]
      have hlt : start + h < audio.length := by omega
      have ihs := ih (start + h) hlt (by omega)
      simp only [List.length_cons, ihs]
      have hA : 1 ≤ audio.length - start - w := by omega
      have e1 : audio.length - (start + h) - w = audio.length - start - w - h := by
        omega
      rw [e1]
      have e2 : audio.length - start - w + h - 1
          = audio.length - start - w - 1 + h := by omega
      rw [e2, Nat.add_div_right _ (by omega)]
      have key : (audio.length - start - w - h + h - 1) / h
          = (audio.length - start - w - 1) / h := by
        by_cases hAh : h ≤ audio.length - start - w
        · congr 1
          omega
        · rw [Nat.div_eq_of_lt (by omega), Nat.div_eq_of_lt (by omega)]
      rw [key]

theorem slidingLoop_starts (audio : List ℚ) (w h : ℕ) :
    ∀ fuel start,
      (slidingLoop audio w h fuel start).2
        = (List.range (slidingLoop audio w h fuel start).2.length).map
            (fun i => start + i * h) := by
  intro fuel
  induction fuel with
  | zero => intro start; simp [slidingLoop]
  | succ fuel ih =>
    intro start
    rw [slidingLoop]
    by_cases hg : start < audio.length
    · rw [if_pos hg]
      by_cases hb : audio.length ≤ start + w
      · rw [if_pos hb]
        simp [List.range_succ]
      · rw [if_neg hb]
        simp only [List.length_cons, List.range_succ_eq_map, List.map_cons,
          List.map_map, Function.comp, Nat.zero_mul, Nat.add_zero,
          List.cons.injEq, true_and]
        conv_lhs => rw [ih (start + h)]
        refine List.map_congr_left ?_
        intro i _
        simp only [Function.comp_apply, Nat.mul_succ, Nat.succ_mul]
        omega
    · rw [if_neg hg]
      simp

/-- C1, counterexample: the claim "the segmenter returns exactly
`ceil(max(L - window_samples, 0) / hop_samples) + 1` segments; in
particular an empty waveform yields exactly one fully zero-padded
segment" is false on the code.  For the empty waveform (with the
pipeline's `window_samples = 66150`, `hop_samples = 33075`) the loop
body never runs, so 0 segments are returned while the formula gives 1;
and for `hop_samples = 5 > window_samples = 2` on a 10-sample waveform
the code returns 2 segments while the formula gives 3. -/
theorem claim_C1_counterexample :
    ((sliding_windows ([] : List ℚ) 22050 66150 33075).1.length = 0
        ∧ ((0 : ℕ) - 66150 + 33075 - 1) / 33075 + 1 = 1)
      ∧ ((sliding_windows
            ([1, 2, 3, 4, 5, 6, 7, 8, 9, 10] : List ℚ) 1 2 5).1.length = 2
        ∧ ((10 : ℕ) - 2 + 5 - 1) / 5 + 1 = 3) := by
  refine ⟨⟨rfl, by norm_num⟩, rfl, by norm_num⟩

/-- C1 (amended): for `hop_samples ≥ 1` and `hop_samples ≤
window_samples` (as in the pipeline configuration), a waveform of
length `L ≥ 1` yields exactly `ceil(max(L - window_samples, 0) /
hop_samples) + 1` segments (written with truncated subtraction and
ceiling division on naturals), while the empty waveform yields 0
segments — not 1. -/
theorem claim_C1_segment_count (audio : List ℚ) (sr w h : ℕ)
    (h1 : 1 ≤ h) (hw : h ≤ w) :
    (sliding_windows audio sr w h).1.length =
      if audio.length = 0 then 0
      else (audio.length - w + h - 1) / h + 1 := by
  unfold sliding_windows
  rw [if_neg (by omega : ¬h = 0)]
  by_cases hL : audio.length = 0
  · rw [if_pos hL, hL]
    simp [slidingLoop]
  · rw [if_neg hL]
    have hc := slidingLoop_count audio w h h1 hw audio.length 0
      (by omega) (by omega)
    simpa using hc

/-- C1 witness: on the 4-sample waveform `[1,2,3,4]` with window 3 and
hop 2, the hypotheses hold and the segmenter yields
`ceil((4-3)/2) + 1 = 2` segments. -/
theorem claim_C1_segment_count_witness :
    1 ≤ 2 ∧ 2 ≤ 3 ∧
      (sliding_windows ([1, 2, 3, 4] : List ℚ) 2 3 2).1.length =
        if ([1, 2, 3, 4] : List ℚ).length = 0 then 0
        else (([1, 2, 3, 4] : List ℚ).length - 3 + 2 - 1) / 2 + 1 :=
  ⟨by norm_num, by norm_num,
    claim_C1_segment_count ([1, 2, 3, 4] : List ℚ) 2 3 2
      (by norm_num) (by norm_num)⟩

/-- C9: assuming `hop_samples ≥ 1` (and a positive sample rate), every
segment emitted by `sliding_windows` has exactly `window_samples`
samples (the tail segment being zero-padded to that length), and the
emitted start times are exactly `0/sr, h/sr, 2h/sr, ...` — the `i`-th
start time is `(i * hop_samples) / sample_rate` — hence strictly
increasing. -/
theorem claim_C9_segment_shape_times (audio : List ℚ) (sr w h : ℕ)
    (h1 : 1 ≤ h) (hsr : 0 < sr) :
    (sliding_windows audio sr w h).1.map List.length
        = List.replicate (sliding_windows audio sr w h).1.length w
      ∧ (sliding_windows audio sr w h).2
          = (List.range (sliding_windows audio sr w h).2.length).map
              (fun i => ((i * h : ℕ) : ℚ) / (sr : ℚ))
      ∧ (sliding_windows audio sr w h).2.Pairwise (· < ·) := by
  have hmono : ∀ i j : ℕ, i < j →
      ((i * h : ℕ) : ℚ) / (sr : ℚ) < ((j * h : ℕ) : ℚ) / (sr : ℚ) := by
    intro i j hij
    have hnat : i * h < j * h := by nlinarith
    have hq : ((i * h : ℕ) : ℚ) < ((j * h : ℕ) : ℚ) := by exact_mod_cast hnat
    have hsrq : (0 : ℚ) < (sr : ℚ) := by exact_mod_cast hsr
    exact div_lt_div_of_pos_right hq hsrq
  unfold sliding_windows
  rw [if_neg (by omega : ¬h = 0)]
  dsimp only
  refine ⟨?_, ?_, ?_⟩
  · refine List.eq_replicate_iff.mpr ⟨by simp, ?_⟩
    intro b hb
    simp only [List.mem_map] at hb
    obtain ⟨seg, hseg, rfl⟩ := hb
    exact slidingLoop_seg_length audio w h audio.length 0 seg hseg
  · have hst := slidingLoop_starts audio w h audio.length 0
    simp only [List.length_map]
    conv_lhs => rw [hst]
    rw [List.map_map]
    refine List.map_congr_left ?_
    intro i _
    simp
  · have hst := slidingLoop_starts audio w h audio.length 0
    rw [hst, List.map_map]
    refine List.Pairwise.map _ ?_ (List.pairwise_lt_range _)
    intro a b hab
    simp only [Function.comp_apply]
    have := hmono a b hab
    simpa using this

/-- C9 witness: on the 5-sample waveform `[1,2,3,4,5]` with sample rate
2, window 3 and hop 2, the hypotheses hold and the conclusion is the
concrete instance. -/
theorem claim_C9_witness :
    1 ≤ 2 ∧ 0 < 2 ∧
      ((sliding_windows ([1, 2, 3, 4, 5] : List ℚ) 2 3 2).1.map List.length
          = List.replicate
              (sliding_windows ([1, 2, 3, 4, 5] : List ℚ) 2 3 2).1.length 3
        ∧ (sliding_windows ([1, 2, 3, 4, 5] : List ℚ) 2 3 2).2
            = (List.range
                (sliding_windows ([1, 2, 3, 4, 5] : List ℚ) 2 3 2).2.length).map
                (fun i => ((i * 2 : ℕ) : ℚ) / ((2 : ℕ) : ℚ))
        ∧ (sliding_windows ([1, 2, 3, 4, 5] : List ℚ) 2 3 2).2.Pairwise
            (· < ·)) :=
  ⟨by norm_num, by norm_num,
    claim_C9_segment_shape_times ([1, 2, 3, 4, 5] : List ℚ) 2 3 2
      (by norm_num) (by norm_num)⟩

theorem foldl_max_init_le (l : List ℚ) : ∀ b : ℚ, b ≤ l.foldl max b := by
  induction l with
  | nil => intro b; exact le_refl b
  | cons x xs ih =>
    intro b
    rw [List.foldl_cons]
    exact le_trans (le_max_left b x) (ih (max b x))

theorem le_foldl_max_of_mem (l : List ℚ) :
    ∀ b a : ℚ, a ∈ l → a ≤ l.foldl max b := by
  induction l with
  | nil => intro b a ha; simp at ha
  | cons x xs ih =>
    intro b a ha
    rw [List.foldl_cons]
    rcases List.mem_cons.mp ha with h1 | h2
    · rw [h1]
      exact le_trans (le_max_right b x) (foldl_max_init_le xs (max b x))
    · exact ih (max b x) a h2

theorem le_npAmax (l : List ℚ) (a : ℚ) (ha : a ∈ l) : a ≤ npAmax l := by
  cases l with
  | nil => simp at ha
  | cons x xs =>
    unfold npAmax
    rcases List.mem_cons.mp ha with h1 | h2
    · rw [h1]
      exact foldl_max_init_le xs x
    · exact le_foldl_max_of_mem xs x a h2

theorem le_maxAgg (P : ℕ → ℕ → ℚ) (n c i : ℕ) (hi : i < n) :
    P i c ≤ maxAgg P n c := by
  refine le_npAmax _ _ ?_
  exact List.mem_map_of_mem _ (List.mem_range.mpr hi)

/-- C3: for every prediction matrix and every method string other than
`"mean"`, `"max"`, `"voting"`, `aggregate_predictions` raises the
reported `ValueError` (modelled as `Except.error` with the same
message); no branch falls back to the mean strategy. -/
theorem claim_C3_unknown_strategy (P : ℕ → ℕ → ℚ) (n : ℕ)
    (method : String) (hm : method ≠ "mean") (hx : method ≠ "max")
    (hv : method ≠ "voting") :
    aggregate_predictions P n method
      = Except.error ("Unknown aggregation method: " ++ method) := by
  unfold aggregate_predictions
  rw [if_neg hm, if_neg hx, if_neg hv]

/-- C3 witness: the strategy string `"bogus"` is none of the three
known ones, and the call reports the error. -/
theorem claim_C3_witness :
    ("bogus" ≠ "mean" ∧ "bogus" ≠ "max" ∧ "bogus" ≠ "voting") ∧
      aggregate_predictions (fun _ _ => 0) 0 "bogus"
        = Except.error ("Unknown aggregation method: " ++ "bogus") :=
  ⟨⟨by decide, by decide, by decide⟩,
    claim_C3_unknown_strategy (fun _ _ => 0) 0 "bogus"
      (by decide) (by decide) (by decide)⟩

/-- C5: on a non-empty prediction matrix the `"max"` aggregation
dominates the `"mean"` aggregation at every class index `c`; the first
two conjuncts pin the two aggregated vectors to the corresponding
branches of `aggregate_predictions`. -/
theorem claim_C5_max_ge_mean (P : ℕ → ℕ → ℚ) (n c : ℕ) (hn : 0 < n) :
    aggregate_predictions P n "max" = Except.ok (maxAgg P n)
      ∧ aggregate_predictions P n "mean" = Except.ok (meanAgg P n)
      ∧ meanAgg P n c ≤ maxAgg P n c := by
  refine ⟨rfl, rfl, ?_⟩
  have hsum : (∑ i in Finset.range n, P i c) ≤ n * maxAgg P n c := by
    calc (∑ i in Finset.range n, P i c)
        ≤ ∑ _i in Finset.range n, maxAgg P n c :=
          Finset.sum_le_sum (fun i hi => le_maxAgg P n c i (Finset.mem_range.mp hi))
      _ = n * maxAgg P n c := by
          rw [Finset.sum_const, Finset.card_range, nsmul_eq_mul]
  have hn' : (0 : ℚ) < (n : ℚ) := by exact_mod_cast hn
  show (∑ i in Finset.range n, P i c) / (n : ℚ) ≤ maxAgg P n c
  rw [div_le_iff₀ hn']
  calc (∑ i in Finset.range n, P i c) ≤ n * maxAgg P n c := hsum
    _ = maxAgg P n c * n := mul_comm _ _

/-- C5 witness: a concrete 2x1 matrix with entries 7/10 and 3/10; the
mean 1/2 is at most the maximum 7/10. -/
theorem claim_C5_witness :
    0 < 2 ∧
      (aggregate_predictions (fun i _ => if i = 0 then (7 : ℚ) / 10 else 3 / 10) 2 "max"
          = Except.ok (maxAgg (fun i _ => if i = 0 then (7 : ℚ) / 10 else 3 / 10) 2)
        ∧ aggregate_predictions (fun i _ => if i = 0 then (7 : ℚ) / 10 else 3 / 10) 2 "mean"
            = Except.ok (meanAgg (fun i _ => if i = 0 then (7 : ℚ) / 10 else 3 / 10) 2)
        ∧ meanAgg (fun i _ => if i = 0 then (7 : ℚ) / 10 else 3 / 10) 2 0
            ≤ maxAgg (fun i _ => if i = 0 then (7 : ℚ) / 10 else 3 / 10) 2 0) :=
  ⟨by norm_num,
    claim_C5_max_ge_mean (fun i _ => if i = 0 then (7 : ℚ) / 10 else 3 / 10) 2 0
      (by norm_num)⟩

/-- C6: on a non-empty prediction matrix with `n` rows the `"voting"`
aggregation at class `c` is the number of rows with probability
strictly above 1/2, divided by `n`; in particular it is `k / n` for
some `0 ≤ k ≤ n`. -/
theorem claim_C6_voting (P : ℕ → ℕ → ℚ) (n c : ℕ) (hn : 0 < n) :
    aggregate_predictions P n "voting" = Except.ok (votingAgg P n)
      ∧ votingAgg P n c
          = (((Finset.range n).filter (fun i => (1 : ℚ) / 2 < P i c)).card : ℚ)
            / (n : ℚ)
      ∧ ∃ k : ℕ, k ≤ n ∧ votingAgg P n c = (k : ℚ) / (n : ℚ) := by
  refine ⟨rfl, rfl,
    ⟨((Finset.range n).filter (fun i => (1 : ℚ) / 2 < P i c)).card, ?_, rfl⟩⟩
  calc ((Finset.range n).filter (fun i => (1 : ℚ) / 2 < P i c)).card
      ≤ (Finset.range n).card := Finset.card_filter_le _ _
    _ = n := Finset.card_range n

/-- C6 witness: on the concrete 2x1 matrix with entries 7/10 and 3/10
exactly one row exceeds 1/2, so the voting result at class 0 is 1/2. -/
theorem claim_C6_witness :
    0 < 2 ∧
      (aggregate_predictions (fun i _ => if i = 0 then (7 : ℚ) / 10 else 3 / 10) 2 "voting"
          = Except.ok (votingAgg (fun i _ => if i = 0 then (7 : ℚ) / 10 else 3 / 10) 2)
        ∧ votingAgg (fun i _ => if i = 0 then (7 : ℚ) / 10 else 3 / 10) 2 0
            = (((Finset.range 2).filter
                (fun i => (1 : ℚ) / 2 < (fun i _ => if i = 0 then (7 : ℚ) / 10 else 3 / 10) i 0)).card : ℚ)
              / ((2 : ℕ) : ℚ)
        ∧ ∃ k : ℕ, k ≤ 2
            ∧ votingAgg (fun i _ => if i = 0 then (7 : ℚ) / 10 else 3 / 10) 2 0
              = (k : ℚ) / ((2 : ℕ) : ℚ)) :=
  ⟨by norm_num,
    claim_C6_voting (fun i _ => if i = 0 then (7 : ℚ) / 10 else 3 / 10) 2 0
      (by norm_num)⟩

theorem foldl_smoothStep_fst (n ws : ℕ) :
    ∀ (l : List ℕ) (st : (ℕ → ℕ → ℚ) × (ℕ → ℕ → ℚ)),
      (l.foldl (smoothStep n ws) st).1 = st.1 := by
  intro l
  induction l with
  | nil => intro st; rfl
  | cons a l ih =>
    intro st
    rw [List.foldl_cons, ih]
    rfl

theorem foldl_smoothStep_snd (n ws : ℕ) (pred : ℕ → ℕ → ℚ) (i c : ℕ) :
    ∀ (l : List ℕ) (S : ℕ → ℕ → ℚ),
      ((l.foldl (smoothStep n ws) (pred, S)).2) i c
        = if i ∈ l then smoothRowVal pred n ws i c else S i c := by
  intro l
  induction l with
  | nil => intro S; simp
  | cons a l ih =>
    intro S
    rw [List.foldl_cons]
    have hstep : smoothStep n ws (pred, S) a
        = (pred, updRow S a (fun c => smoothRowVal pred n ws a c)) := rfl
    rw [hstep, ih]
    by_cases hil : i ∈ l
    · rw [if_pos hil, if_pos (List.mem_cons_of_mem a hil)]
    · rw [if_neg hil]
      by_cases hia : i = a
      · rw [hia, if_pos (List.mem_cons_self a l)]
        unfold updRow
        rw [if_pos rfl]
      · have hnot : i ∉ a :: l := by
          intro hmem
          rcases List.mem_cons.mp hmem with h1 | h2
          · exact hia h1
          · exact hil h2
        rw [if_neg hnot]
        unfold updRow
        rw [if_neg hia]

/-- C10: `smooth_predictions` never modifies its input array: the final
state of `predictions` after the call (first component of the explicit
two-array embedding) equals the initial matrix, for every matrix and
every window size — all writes of the loop target the fresh copy
`smoothed`, and the `window_size <= 1` path returns the input without
writing. -/
theorem claim_C10_input_unchanged (P : ℕ → ℕ → ℚ) (n ws : ℕ) :
    (smooth_predictions_run P n ws).1 = P := by
  unfold smooth_predictions_run
  by_cases hws : ws ≤ 1
  · rw [if_pos hws]
  · rw [if_neg hws]
    exact foldl_smoothStep_fst n ws (List.range n) (P, fun i c => P i c)

/-- C8: `smooth_predictions` with `window_size = 1` is the identity on
the prediction matrix. -/
theorem claim_C8_window_one_identity (P : ℕ → ℕ → ℚ) (n : ℕ) :
    smooth_predictions P n 1 = P := by
  unfold smooth_predictions smooth_predictions_run
  rw [if_pos (le_refl 1)]

/-- C4: for `window_size ≥ 1`, row `i < n` of the smoothed matrix is
the arithmetic mean of the input rows with indices in
`[i - ws/2, i + ws/2] ∩ [0, n-1]` (clipped at both edges, no padding
and no wraparound), independently per class column `c`. -/
theorem claim_C4_moving_average (P : ℕ → ℕ → ℚ) (n ws i c : ℕ)
    (hws : 1 ≤ ws) (hi : i < n) :
    smooth_predictions P n ws i c
      = (∑ j in Finset.Icc (i - ws / 2) (min (i + ws / 2) (n - 1)), P j c)
        / ((Finset.Icc (i - ws / 2) (min (i + ws / 2) (n - 1))).card : ℚ) := by
  by_cases hws1 : ws ≤ 1
  · have hw1 : ws = 1 := le_antisymm hws1 hws
    subst hw1
    unfold smooth_predictions smooth_predictions_run
    rw [if_pos (le_refl 1)]
    have e1 : i - 1 / 2 = i := by omega
    have e2 : min (i + 1 / 2) (n - 1) = i := by omega
    rw [e1, e2, Finset.Icc_self, Finset.sum_singleton, Finset.card_singleton]
    norm_num
  · unfold smooth_predictions smooth_predictions_run
    rw [if_neg hws1]
    rw [foldl_smoothStep_snd n ws P i c (List.range n) (fun i c => P i c)]
    rw [if_pos (List.mem_range.mpr hi)]
    unfold smoothRowVal
    have hIco : Finset.Ico (i - ws / 2) (min n (i + ws / 2 + 1))
        = Finset.Icc (i - ws / 2) (min (i + ws / 2) (n - 1)) := by
      rw [← Nat.Ico_succ_right]
      congr 1
      omega
    rw [hIco]
    congr 1
    rw [Nat.card_Icc]
    congr 1
    omega

/-- C4 witness: on the 4x1 matrix with rows 0,1,2,3 and window 3, the
smoothed row 1 is the mean of rows 0..2. -/
theorem claim_C4_witness :
    1 ≤ 3 ∧ 1 < 4 ∧
      smooth_predictions (fun i _ => (i : ℚ)) 4 3 1 0
        = (∑ j in Finset.Icc (1 - 3 / 2 : ℕ) (min (1 + 3 / 2) (4 - 1) : ℕ),
              (fun i _ => (i : ℚ)) j 0)
          / ((Finset.Icc (1 - 3 / 2 : ℕ) (min (1 + 3 / 2) (4 - 1) : ℕ)).card : ℚ) :=
  ⟨by norm_num, by norm_num,
    claim_C4_moving_average (fun i _ => (i : ℚ)) 4 3 1 0
      (by norm_num) (by norm_num)⟩

/-- C7: the standardisation divisor of the feature extraction is the
standard deviation plus a strictly positive epsilon, hence strictly
positive even for an all-zero (silent) segment: for any mel matrix `M`
and any `s ≥ 0` with `s * s = matVar M` (i.e. `s` is `mel_db.std()`),
the variance is non-negative, both divisors `s + 1e-6`
(`predict_segments`) and `s + 1e-8` (`generate_log_mel`) are strictly
positive, and the normalised, frame-fixed tensor has the constant shape
(`rows` preserved, `TARGET_FRAMES` columns) regardless of content. -/
theorem claim_C7_silent_segment_safe (M : NPMat) (s : ℚ) (hs : 0 ≤ s)
    (hvar : s * s = matVar M) :
    0 ≤ matVar M
      ∧ 0 < s + PIPELINE_EPS
      ∧ 0 < s + EPS
      ∧ (fixFrames (normalizeFeat M s PIPELINE_EPS) TARGET_FRAMES).rows = M.rows
      ∧ (fixFrames (normalizeFeat M s PIPELINE_EPS) TARGET_FRAMES).cols
          = TARGET_FRAMES := by
  refine ⟨?_, ?_, ?_, rfl, rfl⟩
  · unfold matVar
    positivity
  · have h6 : (0 : ℚ) < PIPELINE_EPS := by norm_num [PIPELINE_EPS]
    linarith
  · have h8 : (0 : ℚ) < EPS := by norm_num [EPS]
    linarith

/-- C7 witness: the all-zero 2x2 matrix (a silent segment's constant
log-mel tensor) has variance 0, standard deviation 0, and the
conclusion holds there. -/
theorem claim_C7_witness :
    (0 : ℚ) ≤ 0
      ∧ (0 : ℚ) * 0 = matVar ⟨2, 2, fun _ _ => 0⟩
      ∧ (0 ≤ matVar ⟨2, 2, fun _ _ => 0⟩
        ∧ 0 < (0 : ℚ) + PIPELINE_EPS
        ∧ 0 < (0 : ℚ) + EPS
        ∧ (fixFrames (normalizeFeat ⟨2, 2, fun _ _ => 0⟩ 0 PIPELINE_EPS)
            TARGET_FRAMES).rows = (⟨2, 2, fun _ _ => 0⟩ : NPMat).rows
        ∧ (fixFrames (normalizeFeat ⟨2, 2, fun _ _ => 0⟩ 0 PIPELINE_EPS)
            TARGET_FRAMES).cols = TARGET_FRAMES) :=
  ⟨le_refl 0, by norm_num [matVar, matMean],
    claim_C7_silent_segment_safe ⟨2, 2, fun _ _ => 0⟩ 0 (le_refl 0)
      (by norm_num [matVar, matMean])⟩

/-- C2, counterexample: the config constant `TARGET_FRAMES` (126, the
target frame count `predict_segments` coerces every feature tensor to)
is not equal to `ceil(SEGMENT_DURATION * TARGET_SR / HOP_LENGTH)`
(which is `ceil(66150/512) = 130`), contradicting the claim that both
frame counts equal that ceiling expression. -/
theorem claim_C2_counterexample :
    TARGET_FRAMES ≠ fix_mel_frames_target TARGET_SR := by
  have h130 : fix_mel_frames_target TARGET_SR = 130 := by
    simp only [fix_mel_frames_target, SEGMENT_DURATION, TARGET_SR, HOP_LENGTH]
    norm_num
    have hc : (⌈(33075 : ℚ) / 256⌉ : ℤ) = 130 := by
      rw [Int.ceil_eq_iff]
      constructor <;> norm_num
    rw [hc]
    rfl
  rw [h130]
  norm_num [TARGET_FRAMES]

/-- C2 (amended): `fix_mel_frames` computes its own target as
`ceil(SEGMENT_DURATION * sr / HOP_LENGTH)`, which is 130 at the
pipeline sample rate 22050 and is the column count it produces on every
input matrix; the config constant `TARGET_FRAMES` used by
`predict_segments` is 126, which differs from that ceiling. -/
theorem claim_C2_frame_targets :
    fix_mel_frames_target TARGET_SR = 130
      ∧ (∀ M : NPMat,
          (fix_mel_frames M TARGET_SR).cols = fix_mel_frames_target TARGET_SR)
      ∧ TARGET_FRAMES = 126
      ∧ TARGET_FRAMES ≠ fix_mel_frames_target TARGET_SR := by
  have h130 : fix_mel_frames_target TARGET_SR = 130 := by
    simp only [fix_mel_frames_target, SEGMENT_DURATION, TARGET_SR, HOP_LENGTH]
    norm_num
    have hc : (⌈(33075 : ℚ) / 256⌉ : ℤ) = 130 := by
      rw [Int.ceil_eq_iff]
      constructor <;> norm_num
    rw [hc]
    rfl
  refine ⟨h130, fun M => rfl, rfl, ?_⟩
  rw [h130]
  norm_num [TARGET_FRAMES]

end InstruNet
